import Mathlib

/-!
# Verification of the Twitter collection core (`modules/twitter_client.py`)

A shallow embedding of `TwitterClient.get_recent_tweets` and its nested
helpers `_get_user_tweets` and `process_tweet_elements`, together with
theorems settling the specification claims about them.

Conventions of the embedding:
* timestamps are seconds as `Int` (Python `datetime` with timezone);
* a Selenium DOM element is modelled by the record of everything the code
  reads from it (`TweetElement`); points where the DOM may raise are
  modelled by explicit fields (`fail`, `author_error`, `images_fail_after`),
  mirroring which `try/except` block would catch the exception;
* Python dicts are association lists with in-place replacement on update.
-/

namespace TwitterClient

/-- Where an exception escapes the per-container `try` of
`process_tweet_elements` (caught at lines 303-307 of the source):
`beforeId` = the exception fires before `processed_ids.add(tweet_id)`
(line 227) was reached, `afterId` = it fires after the id was recorded.
Covers both `StaleElementReferenceException` and any other exception:
either way the container is skipped. -/
inductive FailPoint where
  | noFail
  | beforeId
  | afterId
deriving DecidableEq, Repr

/-- Everything `process_tweet_elements` reads from one
`article[data-testid='tweet']` container.

* `tweet_links`: the `href` attributes of the `a[href*='/status/']`
  elements (line 212); an href that Selenium returns as `None` makes the
  later `re.search` raise, which is the `FailPoint.beforeId` case.
* `author_links`: the `href` attributes of the `a` tags inside the first
  `div[data-testid='User-Name']` (lines 234-239); `[]` also covers the
  absent-div case, `none` entries model `get_attribute` returning `None`.
* `author_error`: an exception inside the author-check `try` (caught and
  only logged at lines 247-248).
* `text_divs`: the `.text` of the `div[data-testid='tweetText']` elements
  (lines 251-252).
* `time_attrs`: per `time` element, its parsed `datetime` attribute
  (line 258-264); `none` = attribute absent or empty (falsy).
* `photo_imgs`: the `src` attributes of `img` tags inside
  `div[data-testid='tweetPhoto']` containers, flattened (lines 275-280).
* `images_fail_after`: `some k` = the image `try` raises after the first
  `k` imgs were examined (caught and only logged at lines 286-287).
* `fail`: an exception escaping to the per-container handler. -/
structure TweetElement where
  tweet_links : List String
  author_links : List (Option String)
  author_error : Bool
  text_divs : List String
  time_attrs : List (Option Int)
  photo_imgs : List (Option String)
  images_fail_after : Option Nat
  fail : FailPoint
deriving DecidableEq, Repr

/-- One collected tweet, as the dict built at lines 289-301. The
`original_author` field is `some _` exactly when the source dict carries
the `'original_author'` key. -/
structure Tweet where
  id : String
  text : String
  created_at : Int
  image_urls : List String
  url : String
  is_retweet : Bool
  original_author : Option String
deriving DecidableEq, Repr

/-- The keys of the Python dict built at lines 289-301, in insertion
order: the six fixed keys, then `'original_author'` when it was added. -/
def Tweet.keys (t : Tweet) : List String :=
  ["id", "text", "created_at", "image_urls", "url", "is_retweet"] ++
    (match t.original_author with
     | some _ => ["original_author"]
     | none => [])

/-- Python `str.lower()`: character-wise lowering. -/
def strLower (s : String) : String :=
  String.mk (s.data.map Char.toLower)

/-- Worker for `pySplit`: accumulate the current piece (reversed). -/
def pySplitAux (sep : Char) : List Char → List Char → List String
  | [], acc => [String.mk acc.reverse]
  | c :: cs, acc =>
    if c = sep then String.mk acc.reverse :: pySplitAux sep cs []
    else pySplitAux sep cs (c :: acc)

/-- Python `str.split(sep)` for a one-character separator: every
occurrence splits, empty pieces are kept, `"".split(sep) == [""]`. -/
def pySplit (sep : Char) (s : String) : List String :=
  pySplitAux sep s.data []

/-- Drop a literal prefix from a character list, or fail. -/
def dropLit : List Char → List Char → Option (List Char)
  | [], cs => some cs
  | _ :: _, [] => none
  | p :: ps, c :: cs => if c = p then dropLit ps cs else none

/-- `re.search(r"/status/(\d+)", url)` at line 217: scan left to right for
the literal `/status/` followed by at least one ASCII digit and return the
maximal digit run (the capture group). -/
def statusIdAux : List Char → Option String
  | [] => none
  | c :: cs =>
    match dropLit "/status/".toList (c :: cs) with
    | some rest =>
      let ds := rest.takeWhile Char.isDigit
      if ds.isEmpty then statusIdAux cs else some (String.mk ds)
    | none => statusIdAux cs

/-- Lines 212-221: take the first status link's href and search it for the
tweet id; returns `(tweet_id, tweet_url)`. `none` models the two `continue`
branches (no links, or no regex match). -/
def extractTweetId (e : TweetElement) : Option (String × String) :=
  match e.tweet_links.head? with
  | none => none
  | some url =>
    match statusIdAux url.toList with
    | none => none
    | some tid => some (tid, url)

/-- Lines 229-248: the author handle extracted from the second `a` tag of
the `User-Name` div: the last `/`-separated component of its href,
lower-cased. `none` when the div is absent, has fewer than two links, the
href is `None` (the `.split` would raise `AttributeError`, caught at
line 247), or the block raised. -/
def authorUsername (e : TweetElement) : Option String :=
  if e.author_error then none
  else
    match e.author_links.get? 1 with
    | some (some href) => some (strLower ((pySplit '/' href).getLastD ""))
    | _ => none

/-- Lines 257-265: `created_at` defaults to `now`; the first `time`
element's `datetime` attribute overrides it when present and truthy. -/
def tweetCreatedAt (now : Int) (e : TweetElement) : Int :=
  match e.time_attrs.head? with
  | some (some t) => t
  | _ => now

/-- Does `pat` occur in the character list (worker for Python `in` at
line 281)? -/
def hasSub (pat : List Char) : List Char → Bool
  | [] => pat.isEmpty
  | c :: cs =>
    match dropLit pat (c :: cs) with
    | some _ => true
    | none => hasSub pat cs

/-- Is `pat` a substring (Python `in` at line 281)? -/
def containsSub (pat s : String) : Bool :=
  hasSub pat.data s.data

/-- Is this a `\w` character for the purposes of `re.sub(r"&name=\w+", ...)`
(line 283)? -/
def isWordChar (c : Char) : Bool :=
  c.isAlphanum || c = '_'

/-- Worker for `normalizeImageUrl`: scan left to right for `&name=`
followed by a nonempty word-character run and replace the run with
`orig`, exactly as `re.sub` does; the fuel (initialized to the input
length) only justifies termination, each step consumes at least one
character. -/
def subNameAux : Nat → List Char → List Char
  | 0, l => l
  | _ + 1, [] => []
  | fuel + 1, c :: cs =>
    match dropLit "&name=".toList (c :: cs) with
    | some rest =>
      let w := rest.takeWhile isWordChar
      if w.isEmpty then c :: subNameAux fuel cs
      else "&name=orig".toList ++ subNameAux fuel (rest.drop w.length)
    | none => c :: subNameAux fuel cs

/-- `re.sub(r"&name=\w+", "&name=orig", url)` at line 283: every
occurrence of `&name=` followed by a nonempty word-character run has that
run replaced by `orig`. -/
def normalizeImageUrl (u : String) : String :=
  String.mk (subNameAux u.data.length u.data)

/-- Lines 271-287: collect the `src` of each img examined before any
exception, keeping those that exist and contain the media-host marker,
normalized to original resolution. -/
def extractImages (e : TweetElement) : List String :=
  let imgs := match e.images_fail_after with
    | some k => e.photo_imgs.take k
    | none => e.photo_imgs
  imgs.foldl (fun acc s? =>
    match s? with
    | some s =>
      if containsSub "https://pbs.twimg.com/media" s then
        acc ++ [normalizeImageUrl s]
      else acc
    | none => acc) []

/-- Lines 229-301: the tweet dict built for a container that survived
dedup and the recency filter. `username` is the queried account.
`is_retweet` is set exactly when an author handle was extracted and
differs from `username.lower()` (lines 243-246); the `original_author`
key is added only when `is_retweet` holds and the handle is truthy
(nonempty, line 300). -/
def buildTweet (username : String) (now : Int) (e : TweetElement)
    (tid turl : String) : Tweet :=
  let a? := authorUsername e
  { id := tid
    text := e.text_divs.headD ""
    created_at := tweetCreatedAt now e
    image_urls := extractImages e
    url := turl
    is_retweet := match a? with
      | some a => decide (a ≠ strLower username)
      | none => false
    original_author := match a? with
      | some a => if a ≠ strLower username ∧ a ≠ "" then some a else none
      | none => none }

/-- The state threaded through `process_tweet_elements`: the mutable
`processed_ids` set (line 200) and the batch-local `processed` list
(line 208). -/
abbrev PState := List String × List Tweet

/-- The body of the `for tweet_element in elements` loop of
`process_tweet_elements` (lines 209-307): skip on failure before the id,
skip without a link or id match, skip an already-seen id, record the id,
then skip on later failure or a `created_at` older than `start`, else
append the built tweet. -/
def processElement (username : String) (start now : Int)
    (st : PState) (e : TweetElement) : PState :=
  if e.fail = FailPoint.beforeId then st
  else
    match extractTweetId e with
    | none => st
    | some (tid, turl) =>
      if tid ∈ st.1 then st
      else
        let seen := tid :: st.1
        if e.fail = FailPoint.afterId then (seen, st.2)
        else if tweetCreatedAt now e < start then (seen, st.2)
        else (seen, st.2 ++ [buildTweet username now e tid turl])

/-- `process_tweet_elements(elements)` (lines 207-308): fold the loop body
over the batch, starting from the shared seen-set and an empty
batch-local `processed` list; returns the updated seen-set and the
batch's accepted tweets. -/
def processBatch (username : String) (start now : Int)
    (seen : List String) (es : List TweetElement) : PState :=
  es.foldl (processElement username start now) (seen, [])

/-- `max_scrolls = 10` (line 199). -/
def maxScrolls : Nat := 10

/-- The scroll loop of `_get_user_tweets` (lines 316-333): while fuel
remains, extract batch `idx`, process it, append the newly accepted
tweets, and stop as soon as an iteration accepted nothing
(`if len(new_tweets) == 0: break`, line 332). Returns the accumulated
tweets together with the number of extraction rounds performed so far
(`idx` counts batches already consumed, the initial batch included). -/
def scrollLoop (username : String) (start now : Int)
    (batches : Nat → List TweetElement) :
    Nat → Nat → List String → List Tweet → List Tweet × Nat
  | 0, idx, _, acc => (acc, idx)
  | fuel + 1, idx, seen, acc =>
    let st := processBatch username start now seen (batches idx)
    let acc' := acc ++ st.2
    if st.2 = [] then (acc', idx + 1)
    else scrollLoop username start now batches fuel (idx + 1) st.1 acc'

/-- The collection body of `_get_user_tweets` once the page has loaded
(lines 198-336): process the initially visible batch (index 0, no break
check, lines 311-313), then run the scroll loop over batches 1, 2, …
up to `max_scrolls` iterations. `batches idx` is what
`driver.find_elements` renders before the `idx`-th processing round.
Returns the collected tweets and the number of extraction rounds. -/
def collectTweets (username : String) (start now : Int)
    (batches : Nat → List TweetElement) : List Tweet × Nat :=
  let st := processBatch username start now [] (batches 0)
  scrollLoop username start now batches maxScrolls 1 st.1 st.2

/-- A batch schedule given as a finite list; beyond its end the page
renders no containers. -/
def batchesOf (l : List (List TweetElement)) : Nat → List TweetElement :=
  fun i => l.getD i []

/-- The remainder of a collection run, resumed from an arbitrary point
inside one batch: finish folding the remaining containers `es` of the
current batch from state `st`, then — when resuming a scroll batch
(`isScroll`) — apply the `len(new_tweets) == 0` break check of line 332
before continuing with `scrollLoop`; the initial batch (lines 311-313)
has no break check. `accPrev` is `user_tweets` accumulated before the
current batch. -/
def resumeRun (u : String) (start now : Int)
    (batches : Nat → List TweetElement) (fuel idx : Nat) (isScroll : Bool)
    (es : List TweetElement) (st : PState) (accPrev : List Tweet) :
    List Tweet × Nat :=
  let st' := es.foldl (processElement u start now) st
  let acc' := accPrev ++ st'.2
  if isScroll then
    if st'.2 = [] then (acc', idx)
    else scrollLoop u start now batches fuel idx st'.1 acc'
  else scrollLoop u start now batches fuel idx st'.1 acc'

/-- How one `_get_user_tweets(username)` task goes (lines 163-345):

* `setupError`: `_setup_driver()` itself raises, so `driver` is still
  `None` when `finally` runs;
* `sessionRejected`: `_apply_cookies` returns `False` (line 169),
  return `[]`;
* `pageTimeout`: the 15-second wait for a tweet container times out
  (lines 190-196), return `[]`;
* `fetchError`: a `TimeoutException` or any other exception escapes the
  body (lines 337-342), return `[]`;
* `ok batches`: the page loads and renders `batches idx` at round `idx`. -/
inductive FetchOutcome where
  | setupError
  | sessionRejected
  | pageTimeout
  | fetchError
  | ok (batches : Nat → List TweetElement)

/-- The observable trace of one `_get_user_tweets` task: its returned
list, whether a driver was acquired, and whether `driver.quit()` ran in
the `finally` block (lines 343-345: quit exactly when `driver` is not
`None`). -/
structure RunTrace where
  result : List Tweet
  acquired : Bool
  released : Bool
deriving DecidableEq, Repr

/-- `_get_user_tweets(username)` with its `try/except/finally`
(lines 163-345), as the trace of one task. Every path that reached the
driver assignment ends with `driver.quit()`. -/
def getUserTweetsRun (username : String) (start now : Int) :
    FetchOutcome → RunTrace
  | FetchOutcome.setupError => ⟨[], false, false⟩
  | FetchOutcome.sessionRejected => ⟨[], true, true⟩
  | FetchOutcome.pageTimeout => ⟨[], true, true⟩
  | FetchOutcome.fetchError => ⟨[], true, true⟩
  | FetchOutcome.ok batches =>
    ⟨(collectTweets username start now batches).1, true, true⟩

/-- The value `_get_user_tweets(username)` returns to the orchestrator. -/
def getUserTweets (username : String) (start now : Int)
    (o : FetchOutcome) : List Tweet :=
  (getUserTweetsRun username start now o).result

/-- The per-account result mapping (`tweets_by_user`). -/
abbrev ResultMap := List (String × List Tweet)

/-- Python dict assignment `m[k] = v`: replace in place, else append. -/
def dictInsert (k : String) (v : List Tweet) : ResultMap → ResultMap
  | [] => [(k, v)]
  | (k', v') :: rest =>
    if k' = k then (k, v) :: rest else (k', v') :: dictInsert k v rest

/-- Python `m.get(k)` on the association-list dict. -/
def dictLookup (k : String) : ResultMap → Option (List Tweet)
  | [] => none
  | (k', v) :: rest => if k' = k then some v else dictLookup k rest

/-- Lines 157 and 347-362 of `get_recent_tweets`: initialize
`tweets_by_user = {username.lower(): [] for username in accounts}`, then
for each account in listed order run `_get_user_tweets` on the executor,
await it, and store the result under the lower-cased handle.
`outcomes` says how each account's task goes. -/
def collectAllFresh (accounts : List String) (start now : Int)
    (outcomes : String → FetchOutcome) : ResultMap :=
  let init := accounts.foldl (fun m u => dictInsert (strLower u) [] m) []
  accounts.foldl
    (fun m u =>
      dictInsert (strLower u) (getUserTweets u start now (outcomes u)) m)
    init

/-- Decimal digit characters of a positive number, most significant
first; the fuel (initialized to the number itself) only justifies
termination. -/
def natDigitsAux : Nat → Nat → List Char
  | 0, _ => []
  | fuel + 1, n =>
    if n = 0 then []
    else natDigitsAux fuel (n / 10) ++ [Nat.digitChar (n % 10)]

/-- Python's `str` of a natural number (decimal, no sign, `"0"` for 0),
used by the f-string `f"tweets_{hours}"`. -/
def natDecimal (n : Nat) : String :=
  if n = 0 then "0" else String.mk (natDigitsAux n n)

/-- `cache_key = f"tweets_{hours}"` (line 148). -/
def cacheKey (hours : Nat) : String :=
  "tweets_" ++ natDecimal hours

/-- `self.cache_ttl_minutes = 5` (line 51). -/
def cacheTtlMinutes : Nat := 5

/-- The cache fields of the client relevant to `get_recent_tweets`:
`_tweets_cache` and `_tweets_cache_time` (lines 45-46), both keyed by the
cache-key string. -/
structure ClientState where
  tweetsCache : List (String × ResultMap)
  tweetsCacheTime : List (String × Int)

/-- Association-list lookup for the cache dicts. -/
def assocLookup {α : Type} (k : String) : List (String × α) → Option α
  | [] => none
  | (k', v) :: rest => if k' = k then some v else assocLookup k rest

/-- Association-list store for the cache dicts. -/
def assocInsert {α : Type} (k : String) (v : α) :
    List (String × α) → List (String × α)
  | [] => [(k, v)]
  | (k', v') :: rest =>
    if k' = k then (k, v) :: rest else (k', v') :: assocInsert k v rest

/-- `get_recent_tweets(hours)` (lines 147-368). Returns the mapping, the
updated client state, and whether the browser layer was invoked (the
cache-miss path). The hit condition (lines 151-153): both cache dicts
hold the exact key and `now - fetched_at` is strictly below the TTL in
seconds. On a miss the run collects with
`start_time = now - timedelta(hours=hours)` and finally overwrites both
entries for the key (lines 364-366). -/
def getRecentTweets (st : ClientState) (accounts : List String)
    (now : Int) (hours : Nat) (outcomes : String → FetchOutcome) :
    ResultMap × ClientState × Bool :=
  let key := cacheKey hours
  match assocLookup key st.tweetsCache, assocLookup key st.tweetsCacheTime with
  | some cached, some fetchedAt =>
    if now - fetchedAt < (cacheTtlMinutes : Int) * 60 then
      (cached, st, false)
    else
      let res := collectAllFresh accounts (now - (hours : Int) * 3600) now outcomes
      (res, ⟨assocInsert key res st.tweetsCache,
             assocInsert key now st.tweetsCacheTime⟩, true)
  | _, _ =>
    let res := collectAllFresh accounts (now - (hours : Int) * 3600) now outcomes
    (res, ⟨assocInsert key res st.tweetsCache,
           assocInsert key now st.tweetsCacheTime⟩, true)

/-- `max_workers=3` of the executor created at line 40. -/
def maxWorkers : Nat := 3

/-- The orchestration events of the per-account loop (lines 348-362),
tagged with the account's position in the configured list:
`dispatch i u` = `run_in_executor(self.executor, _get_user_tweets, u)`,
`complete i u` = the `await` of that future returns,
`sleep i` = `await asyncio.sleep(1)`. -/
inductive OrchEvent where
  | dispatch (i : Nat) (u : String)
  | complete (i : Nat) (u : String)
  | sleep (i : Nat)
deriving DecidableEq, Repr

/-- The tail of the orchestration trace starting at the `k`-th account:
dispatch it, await it, sleep, move on. -/
def traceFrom (k : Nat) : List String → List OrchEvent
  | [] => []
  | u :: rest =>
    OrchEvent.dispatch k u :: OrchEvent.complete k u :: OrchEvent.sleep k ::
      traceFrom (k + 1) rest

/-- The event trace of the loop at lines 348-362: for each account in
order, dispatch its task, await its completion, then sleep — the next
account is dispatched only after the previous await returned. -/
def collectAllTrace (accounts : List String) : List OrchEvent :=
  traceFrom 0 accounts

/-- `e1` occurs at some position strictly before an occurrence of `e2`. -/
def occursBefore (e1 e2 : OrchEvent) (tr : List OrchEvent) : Prop :=
  ∃ p q, p < q ∧ tr.get? p = some e1 ∧ tr.get? q = some e2

/-- A minimal rendered container: one status link and one timestamped
`time` element, no author block, no text, no media. -/
def plainElem (url : String) (ts : Int) : TweetElement :=
  { tweet_links := [url]
    author_links := []
    author_error := false
    text_divs := []
    time_attrs := [some ts]
    photo_imgs := []
    images_fail_after := none
    fail := FailPoint.noFail }

/-- The container with id `1` of the mocked-extractor scenario. -/
def sampleE1 : TweetElement :=
  plainElem "https://twitter.com/user/status/1" 5

/-- The container with id `2` of the mocked-extractor scenario. -/
def sampleE2 : TweetElement :=
  plainElem "https://twitter.com/user/status/2" 6

/-- A container whose rendered author link is the bare site root, so the
extracted author handle is the empty string. -/
def emptyAuthorElem : TweetElement :=
  { plainElem "https://twitter.com/alice/status/77" 5 with
    author_links := [some "https://twitter.com/irrelevant",
                     some "https://twitter.com/"] }

/-- A container rendered on `bob`'s page but authored by `Charlie`. -/
def repostElem : TweetElement :=
  { plainElem "https://twitter.com/bob/status/5" 5 with
    author_links := [some "https://twitter.com/irrelevant",
                     some "https://twitter.com/Charlie"] }

/-- A container with no `time` element at all. -/
def noTimeElem : TweetElement :=
  { plainElem "https://twitter.com/user/status/3" 0 with time_attrs := [] }

/-- A container rendering id `9` with an old timestamp. -/
def oldElem : TweetElement :=
  plainElem "https://twitter.com/user/status/9" 5

/-- The same id `9` re-rendered later with a timestamp inside the
window. -/
def freshElem9 : TweetElement :=
  plainElem "https://twitter.com/user/status/9" 20

/-! ## Supporting lemmas -/

/-- Exhaustive case analysis of one `process_tweet_elements` loop body:
either the container is skipped with the state untouched, or a fresh id
is recorded and the container is dropped (failure after the id, or too
old), or a fresh id is recorded and its tweet appended. -/
theorem processElement_eq (u : String) (start now : Int) (st : PState)
    (e : TweetElement) :
    processElement u start now st e = st ∨
    ∃ tid turl, extractTweetId e = some (tid, turl) ∧ tid ∉ st.1 ∧
      e.fail ≠ FailPoint.beforeId ∧
      ((processElement u start now st e = (tid :: st.1, st.2) ∧
          (e.fail = FailPoint.afterId ∨ tweetCreatedAt now e < start)) ∨
       (processElement u start now st e =
            (tid :: st.1, st.2 ++ [buildTweet u now e tid turl]) ∧
          e.fail ≠ FailPoint.afterId ∧ ¬ tweetCreatedAt now e < start)) := by
  unfold processElement
  by_cases hb : e.fail = FailPoint.beforeId
  · left; simp [hb]
  · cases hx : extractTweetId e with
    | none => left; simp [hb, hx]
    | some p =>
      obtain ⟨tid, turl⟩ := p
      by_cases hmem : tid ∈ st.1
      · left; simp [hb, hx, hmem]
      · right
        refine ⟨tid, turl, rfl, hmem, hb, ?_⟩
        by_cases ha : e.fail = FailPoint.afterId
        · left; simp [hb, hx, hmem, ha]
        · by_cases ht : tweetCreatedAt now e < start
          · left; simp [hb, hx, hmem, ha, ht]
          · right; simp [hb, hx, hmem, ha, ht]

/-- The seen-set only grows. -/
theorem seen_subset_processElement (u : String) (start now : Int)
    (st : PState) (e : TweetElement) :
    st.1 ⊆ (processElement u start now st e).1 := by
  rcases processElement_eq u start now st e with h | ⟨tid, turl, _, _, _, h⟩
  · rw [h]; exact List.Subset.refl _
  · rcases h with ⟨h, _⟩ | ⟨h, _, _⟩ <;> rw [h] <;>
      exact List.subset_cons_self tid st.1


/-- Generic preservation: a predicate holding of every accepted tweet and
every tweet already in the batch-local list survives one loop body. -/
theorem mem_processElement (u : String) (start now : Int) (st : PState)
    (e : TweetElement) (P : Tweet → Prop)
    (hP : ∀ tid turl, extractTweetId e = some (tid, turl) →
      ¬ tweetCreatedAt now e < start → P (buildTweet u now e tid turl))
    (hst : ∀ t ∈ st.2, P t) :
    ∀ t ∈ (processElement u start now st e).2, P t := by
  rcases processElement_eq u start now st e with h | ⟨tid, turl, hx, _, _, h⟩
  · rw [h]; exact hst
  · rcases h with ⟨h, _⟩ | ⟨h, _, ht⟩ <;> rw [h]
    · exact hst
    · intro t htm
      rcases List.mem_append.mp htm with hm | hm
      · exact hst t hm
      · rcases List.mem_singleton.mp hm with rfl
        exact hP tid turl hx ht

/-- `mem_processElement` lifted over one whole batch fold. -/
theorem mem_foldl_processElement (u : String) (start now : Int)
    (P : Tweet → Prop)
    (hP : ∀ e tid turl, extractTweetId e = some (tid, turl) →
      ¬ tweetCreatedAt now e < start → P (buildTweet u now e tid turl)) :
    ∀ (es : List TweetElement) (st : PState), (∀ t ∈ st.2, P t) →
      ∀ t ∈ (es.foldl (processElement u start now) st).2, P t := by
  intro es
  induction es with
  | nil => intro st hst; exact hst
  | cons e rest ih =>
    intro st hst
    exact ih (processElement u start now st e)
      (mem_processElement u start now st e P (hP e) hst)

/-- `mem_processElement` lifted over `process_tweet_elements`. -/
theorem mem_processBatch (u : String) (start now : Int)
    (seen : List String) (es : List TweetElement) (P : Tweet → Prop)
    (hP : ∀ e tid turl, extractTweetId e = some (tid, turl) →
      ¬ tweetCreatedAt now e < start → P (buildTweet u now e tid turl)) :
    ∀ t ∈ (processBatch u start now seen es).2, P t :=
  mem_foldl_processElement u start now P hP es (seen, [])
    (by intro t ht; simp at ht)

/-- `mem_processElement` lifted over the scroll loop. -/
theorem mem_scrollLoop (u : String) (start now : Int)
    (batches : Nat → List TweetElement) (P : Tweet → Prop)
    (hP : ∀ e tid turl, extractTweetId e = some (tid, turl) →
      ¬ tweetCreatedAt now e < start → P (buildTweet u now e tid turl)) :
    ∀ (fuel idx : Nat) (seen : List String) (acc : List Tweet),
      (∀ t ∈ acc, P t) →
      ∀ t ∈ (scrollLoop u start now batches fuel idx seen acc).1, P t := by
  intro fuel
  induction fuel with
  | zero => intro idx seen acc hacc; exact hacc
  | succ f ih =>
    intro idx seen acc hacc
    rw [scrollLoop]
    have hnew := mem_processBatch u start now seen (batches idx) P hP
    have hacc' : ∀ t ∈ acc ++ (processBatch u start now seen (batches idx)).2, P t := by
      intro t ht
      rcases List.mem_append.mp ht with h | h
      · exact hacc t h
      · exact hnew t h
    by_cases hz : (processBatch u start now seen (batches idx)).2 = []
    · simp only [hz]; simpa [hz] using hacc'
    · simp only [if_neg hz]
      exact ih (idx + 1) _ _ hacc'

/-- Every tweet produced by a full collection run satisfies any predicate
that holds of every accepted build. -/
theorem mem_collectTweets (u : String) (start now : Int)
    (batches : Nat → List TweetElement) (P : Tweet → Prop)
    (hP : ∀ e tid turl, extractTweetId e = some (tid, turl) →
      ¬ tweetCreatedAt now e < start → P (buildTweet u now e tid turl)) :
    ∀ t ∈ (collectTweets u start now batches).1, P t := by
  unfold collectTweets
  exact mem_scrollLoop u start now batches P hP maxScrolls 1 _ _
    (mem_processBatch u start now [] (batches 0) P hP)

/-- The dedup invariant threaded through a batch fold, stated relative
to the seen-set `seen0` the batch started from: the seen-set only grows,
the batch-local ids are distinct, every batch-local id is recorded, and
none of them was in `seen0`. -/
theorem foldl_dedup_invariant (u : String) (start now : Int)
    (seen0 : List String) (es : List TweetElement) :
    ∀ st : PState, seen0 ⊆ st.1 → (st.2.map Tweet.id).Nodup →
      (∀ t ∈ st.2, t.id ∈ st.1) → (∀ t ∈ st.2, t.id ∉ seen0) →
      seen0 ⊆ (es.foldl (processElement u start now) st).1 ∧
      ((es.foldl (processElement u start now) st).2.map Tweet.id).Nodup ∧
      (∀ t ∈ (es.foldl (processElement u start now) st).2,
        t.id ∈ (es.foldl (processElement u start now) st).1) ∧
      (∀ t ∈ (es.foldl (processElement u start now) st).2, t.id ∉ seen0) := by
  induction es with
  | nil => intro st h1 h2 h3 h4; exact ⟨h1, h2, h3, h4⟩
  | cons e rest ih =>
    intro st h1 h2 h3 h4
    simp only [List.foldl_cons]
    rcases processElement_eq u start now st e with h | ⟨tid, turl, _, hf, _, h⟩
    · rw [h]; exact ih st h1 h2 h3 h4
    · rcases h with ⟨h, _⟩ | ⟨h, _, _⟩ <;> rw [h]
      · exact ih _ (h1.trans (List.subset_cons_self tid st.1)) h2
          (fun t ht => List.mem_cons_of_mem tid (h3 t ht)) h4
      · refine ih _ (h1.trans (List.subset_cons_self tid st.1)) ?_ ?_ ?_
        · have htid : tid ∉ st.2.map Tweet.id := by
            intro hmem
            rcases List.mem_map.mp hmem with ⟨t, ht, hEq⟩
            exact hf (hEq ▸ h3 t ht)
          simp only [List.map_append, List.map_cons, List.map_nil]
          simp [List.nodup_append, buildTweet, h2, htid]
        · intro t ht
          rcases List.mem_append.mp ht with hm | hm
          · exact List.mem_cons_of_mem tid (h3 t hm)
          · rcases List.mem_singleton.mp hm with rfl
            simp [buildTweet]
        · intro t ht
          rcases List.mem_append.mp ht with hm | hm
          · exact h4 t hm
          · rcases List.mem_singleton.mp hm with rfl
            simp only [buildTweet]
            exact fun hc => hf (h1 hc)

/-- `process_tweet_elements` grows the seen-set, returns distinct,
freshly recorded ids, none of which was seen before the batch. -/
theorem processBatch_dedup (u : String) (start now : Int)
    (seen : List String) (es : List TweetElement) :
    seen ⊆ (processBatch u start now seen es).1 ∧
    ((processBatch u start now seen es).2.map Tweet.id).Nodup ∧
    (∀ t ∈ (processBatch u start now seen es).2,
      t.id ∈ (processBatch u start now seen es).1) ∧
    (∀ t ∈ (processBatch u start now seen es).2, t.id ∉ seen) := by
  refine foldl_dedup_invariant u start now seen es (seen, []) ?_ ?_ ?_ ?_
  · exact List.Subset.refl _
  · simp
  · simp
  · simp

/-- The scroll loop keeps the accumulated ids distinct, provided they are
all recorded in the current seen-set. -/
theorem scrollLoop_nodup (u : String) (start now : Int)
    (batches : Nat → List TweetElement) :
    ∀ (fuel idx : Nat) (seen : List String) (acc : List Tweet),
      (acc.map Tweet.id).Nodup → (∀ t ∈ acc, t.id ∈ seen) →
      (((scrollLoop u start now batches fuel idx seen acc).1.map
        Tweet.id).Nodup) := by
  intro fuel
  induction fuel with
  | zero => intro idx seen acc h _; exact h
  | succ f ih =>
    intro idx seen acc hnd hseen
    rw [scrollLoop]
    obtain ⟨hsub, hnd', hrec, hfresh⟩ :=
      processBatch_dedup u start now seen (batches idx)
    have hnodup' :
        ((acc ++ (processBatch u start now seen (batches idx)).2).map
          Tweet.id).Nodup := by
      simp only [List.map_append]
      rw [List.nodup_append]
      refine ⟨hnd, hnd', ?_⟩
      intro x hx hy
      rcases List.mem_map.mp hx with ⟨t, ht, rfl⟩
      rcases List.mem_map.mp hy with ⟨t', ht', hEq⟩
      exact hfresh t' ht' (by rw [hEq]; exact hseen t ht)
    by_cases hz : (processBatch u start now seen (batches idx)).2 = []
    · simpa [hz] using hnodup'
    · simp only [if_neg hz]
      refine ih (idx + 1) _ _ hnodup' ?_
      intro t ht
      rcases List.mem_append.mp ht with hm | hm
      · exact hsub (hseen t hm)
      · exact hrec t hm

/-- A full collection run returns pairwise-distinct ids. -/
theorem collectTweets_nodup (u : String) (start now : Int)
    (batches : Nat → List TweetElement) :
    ((collectTweets u start now batches).1.map Tweet.id).Nodup := by
  unfold collectTweets
  obtain ⟨_, hnd, hrec, _⟩ := processBatch_dedup u start now [] (batches 0)
  exact scrollLoop_nodup u start now batches maxScrolls 1 _ _ hnd hrec

/-- Once an id is in the seen-set while absent from the batch-local list,
one more loop body keeps it that way. -/
theorem excluded_processElement (u : String) (start now : Int)
    (st : PState) (e : TweetElement) (i : String)
    (hseen : i ∈ st.1) (hout : i ∉ st.2.map Tweet.id) :
    i ∈ (processElement u start now st e).1 ∧
    i ∉ (processElement u start now st e).2.map Tweet.id := by
  rcases processElement_eq u start now st e with h | ⟨tid, turl, _, hf, _, h⟩
  · rw [h]; exact ⟨hseen, hout⟩
  · rcases h with ⟨h, _⟩ | ⟨h, _, _⟩ <;> rw [h]
    · exact ⟨List.mem_cons_of_mem tid hseen, hout⟩
    · refine ⟨List.mem_cons_of_mem tid hseen, ?_⟩
      simp only [List.map_append, List.map_cons, List.map_nil,
        List.mem_append, List.mem_singleton]
      rintro (hm | hm)
      · exact hout hm
      · rw [show (buildTweet u now e tid turl).id = tid from rfl] at hm
        exact hf (hm ▸ hseen)

/-- `excluded_processElement` over a whole batch fold. -/
theorem excluded_foldl (u : String) (start now : Int)
    (es : List TweetElement) (i : String) :
    ∀ st : PState, i ∈ st.1 → i ∉ st.2.map Tweet.id →
      i ∈ (es.foldl (processElement u start now) st).1 ∧
      i ∉ (es.foldl (processElement u start now) st).2.map Tweet.id := by
  induction es with
  | nil => intro st h1 h2; exact ⟨h1, h2⟩
  | cons e rest ih =>
    intro st h1 h2
    obtain ⟨h1', h2'⟩ := excluded_processElement u start now st e i h1 h2
    exact ih _ h1' h2'

/-- `excluded_processElement` over the remaining scroll iterations. -/
theorem excluded_scrollLoop (u : String) (start now : Int)
    (batches : Nat → List TweetElement) (i : String) :
    ∀ (fuel idx : Nat) (seen : List String) (acc : List Tweet),
      i ∈ seen → i ∉ acc.map Tweet.id →
      i ∉ (scrollLoop u start now batches fuel idx seen acc).1.map Tweet.id := by
  intro fuel
  induction fuel with
  | zero => intro idx seen acc _ h; exact h
  | succ f ih =>
    intro idx seen acc hseen hacc
    rw [scrollLoop]
    obtain ⟨hseen', hnew⟩ := excluded_foldl u start now (batches idx) i
      (seen, []) hseen (by simp)
    have hacc' :
        i ∉ (acc ++ (processBatch u start now seen (batches idx)).2).map
          Tweet.id := by
      simp only [List.map_append, List.mem_append]
      rintro (hm | hm)
      · exact hacc hm
      · exact hnew hm
    by_cases hz : (processBatch u start now seen (batches idx)).2 = []
    · simpa [hz] using hacc'
    · simp only [if_neg hz]
      exact ih (idx + 1) _ _ hseen' hacc'

/-- `excluded_processElement` over a run resumed mid-batch. -/
theorem excluded_resumeRun (u : String) (start now : Int)
    (batches : Nat → List TweetElement) (fuel idx : Nat) (isScroll : Bool)
    (es : List TweetElement) (st : PState) (accPrev : List Tweet)
    (i : String) (hseen : i ∈ st.1) (hout : i ∉ st.2.map Tweet.id)
    (hprev : i ∉ accPrev.map Tweet.id) :
    i ∉ (resumeRun u start now batches fuel idx isScroll es st
      accPrev).1.map Tweet.id := by
  unfold resumeRun
  obtain ⟨hseen', hout'⟩ := excluded_foldl u start now es i st hseen hout
  have hacc' :
      i ∉ (accPrev ++ (es.foldl (processElement u start now) st).2).map
        Tweet.id := by
    simp only [List.map_append, List.mem_append]
    rintro (hm | hm)
    · exact hprev hm
    · exact hout' hm
  cases isScroll
  · simp only [Bool.false_eq_true, if_false]
    exact excluded_scrollLoop u start now batches i fuel idx _ _ hseen' hacc'
  · simp only [if_true]
    by_cases hz : (es.foldl (processElement u start now) st).2 = []
    · simpa [hz] using hacc'
    · simp only [if_neg hz]
      exact excluded_scrollLoop u start now batches i fuel idx _ _ hseen' hacc'

/-- Unfolding: one step of the scroll loop is a resumed run of the whole
scroll batch. -/
theorem scrollLoop_eq_resumeRun (u : String) (start now : Int)
    (batches : Nat → List TweetElement) (fuel idx : Nat)
    (seen : List String) (acc : List Tweet) :
    scrollLoop u start now batches (fuel + 1) idx seen acc =
      resumeRun u start now batches fuel (idx + 1) true (batches idx)
        (seen, []) acc := by
  rw [scrollLoop, resumeRun, processBatch]
  simp

/-- Unfolding: a full collection run is the initial batch resumed from
the empty state. -/
theorem collectTweets_eq_resumeRun (u : String) (start now : Int)
    (batches : Nat → List TweetElement) :
    collectTweets u start now batches =
      resumeRun u start now batches maxScrolls 1 false (batches 0)
        ([], []) [] := by
  rw [collectTweets, resumeRun, processBatch]
  simp

/-- Looking up the key just stored. -/
theorem dictLookup_dictInsert_self (k : String) (v : List Tweet)
    (m : ResultMap) : dictLookup k (dictInsert k v m) = some v := by
  induction m with
  | nil => simp [dictInsert, dictLookup]
  | cons p rest ih =>
    obtain ⟨k', v'⟩ := p
    by_cases h : k' = k
    · simp [dictInsert, dictLookup, h]
    · simp [dictInsert, dictLookup, h, ih]

/-- Storing under one key leaves other keys' lookups unchanged. -/
theorem dictLookup_dictInsert_ne (k k' : String) (v : List Tweet)
    (m : ResultMap) (h : k' ≠ k) :
    dictLookup k (dictInsert k' v m) = dictLookup k m := by
  induction m with
  | nil => simp [dictInsert, dictLookup, h]
  | cons p rest ih =>
    obtain ⟨k'', v''⟩ := p
    by_cases h2 : k'' = k'
    · simp [dictInsert, dictLookup, h2, h]
    · by_cases h3 : k'' = k <;>
        simp [dictInsert, dictLookup, h2, h3, Ne.symm h, ih]

/-- Each binding of the updated dict is the new one or an old one. -/
theorem mem_dictInsert (k : String) (v : List Tweet) (m : ResultMap)
    (p : String × List Tweet) (hp : p ∈ dictInsert k v m) :
    p = (k, v) ∨ p ∈ m := by
  induction m with
  | nil => simpa [dictInsert] using hp
  | cons q rest ih =>
    obtain ⟨k', v'⟩ := q
    by_cases h : k' = k
    · simp only [dictInsert, if_pos h] at hp
      rcases List.mem_cons.mp hp with h1 | h1
      · exact Or.inl h1
      · exact Or.inr (List.mem_cons_of_mem _ h1)
    · simp only [dictInsert, if_neg h] at hp
      rcases List.mem_cons.mp hp with h1 | h1
      · exact Or.inr (h1 ▸ List.mem_cons_self _ _)
      · rcases ih h1 with h2 | h2
        · exact Or.inl h2
        · exact Or.inr (List.mem_cons_of_mem _ h2)

/-- A successful lookup yields one of the dict's stored values. -/
theorem dictLookup_mem (k : String) (m : ResultMap) (l : List Tweet)
    (h : dictLookup k m = some l) : (k, l) ∈ m := by
  induction m with
  | nil => simp [dictLookup] at h
  | cons p rest ih =>
    obtain ⟨k', v'⟩ := p
    by_cases h2 : k' = k
    · subst h2
      simp only [dictLookup, if_pos rfl] at h
      obtain rfl : v' = l := by injection h
      exact List.mem_cons_self _ _
    · simp only [dictLookup, if_neg h2] at h
      exact List.mem_cons_of_mem _ (ih h)

/-- Folding account inserts leaves a key untouched when no account maps
to it. -/
theorem dictLookup_foldl_not_mem (f : String → List Tweet) (k : String) :
    ∀ (accs : List String) (m : ResultMap),
      k ∉ accs.map strLower →
      dictLookup k (accs.foldl (fun m u => dictInsert (strLower u) (f u) m) m) =
        dictLookup k m := by
  intro accs
  induction accs with
  | nil => intro m _; rfl
  | cons a rest ih =>
    intro m hk
    simp only [List.map_cons, List.mem_cons, not_or] at hk
    simp only [List.foldl_cons]
    rw [ih _ hk.2, dictLookup_dictInsert_ne _ _ _ _ (fun h => hk.1 h.symm)]

/-- After folding the per-account inserts, an account whose lower-cased
handle is unambiguous reads back exactly its own value. -/
theorem dictLookup_foldl_mem (f : String → List Tweet) (u : String) :
    ∀ (accs : List String) (m : ResultMap), u ∈ accs →
      (accs.map strLower).Nodup →
      dictLookup (strLower u)
        (accs.foldl (fun m w => dictInsert (strLower w) (f w) m) m) =
        some (f u) := by
  intro accs
  induction accs with
  | nil => intro m h; simp at h
  | cons a rest ih =>
    intro m hu hnd
    simp only [List.map_cons, List.nodup_cons] at hnd
    simp only [List.foldl_cons]
    rcases List.mem_cons.mp hu with rfl | hu'
    · rw [dictLookup_foldl_not_mem f _ rest _ hnd.1,
        dictLookup_dictInsert_self]
    · exact ih _ hu' hnd.2

/-- Looking up the key just stored (cache dicts). -/
theorem assocLookup_assocInsert_self {α : Type} (k : String) (v : α)
    (m : List (String × α)) :
    assocLookup k (assocInsert k v m) = some v := by
  induction m with
  | nil => simp [assocInsert, assocLookup]
  | cons p rest ih =>
    obtain ⟨k', v'⟩ := p
    by_cases h : k' = k
    · simp [assocInsert, assocLookup, h]
    · simp [assocInsert, assocLookup, h, ih]

/-- Storing under one key leaves other keys' lookups unchanged
(cache dicts). -/
theorem assocLookup_assocInsert_ne {α : Type} (k k' : String) (v : α)
    (m : List (String × α)) (h : k' ≠ k) :
    assocLookup k (assocInsert k' v m) = assocLookup k m := by
  induction m with
  | nil => simp [assocInsert, assocLookup, h]
  | cons p rest ih =>
    obtain ⟨k'', v''⟩ := p
    by_cases h2 : k'' = k'
    · simp [assocInsert, assocLookup, h2, h]
    · by_cases h3 : k'' = k <;>
        simp [assocInsert, assocLookup, h2, h3, Ne.symm h, ih]

/-- `Nat.digitChar` is injective on single digits. -/
theorem digitChar_inj_on_digits :
    ∀ a < 10, ∀ b < 10, Nat.digitChar a = Nat.digitChar b → a = b := by
  decide

/-- Mapping `Nat.digitChar` over digit lists is injective. -/
theorem map_digitChar_inj :
    ∀ l1 l2 : List Nat, (∀ x ∈ l1, x < 10) → (∀ x ∈ l2, x < 10) →
      l1.map Nat.digitChar = l2.map Nat.digitChar → l1 = l2 := by
  intro l1
  induction l1 with
  | nil =>
    intro l2 _ _ h
    cases l2 with
    | nil => rfl
    | cons b bs => simp at h
  | cons a as ih =>
    intro l2 h1 h2 h
    cases l2 with
    | nil => simp at h
    | cons b bs =>
      simp only [List.map_cons, List.cons.injEq] at h
      have ha : a = b := digitChar_inj_on_digits a
        (h1 a (List.mem_cons_self _ _)) b (h2 b (List.mem_cons_self _ _)) h.1
      have hs : as = bs := ih bs (fun x hx => h1 x (List.mem_cons_of_mem _ hx))
        (fun x hx => h2 x (List.mem_cons_of_mem _ hx)) h.2
      rw [ha, hs]

/-- `natDigitsAux` at zero is empty for any fuel. -/
theorem natDigitsAux_zero : ∀ fuel, natDigitsAux fuel 0 = [] := by
  intro fuel; cases fuel <;> simp [natDigitsAux]

/-- With enough fuel, `natDigitsAux` computes the decimal digits, most
significant first. -/
theorem natDigitsAux_eq_digits :
    ∀ (fuel n : Nat), n ≤ fuel →
      natDigitsAux fuel n =
        ((Nat.digits 10 n).map Nat.digitChar).reverse := by
  intro fuel
  induction fuel with
  | zero =>
    intro n hn
    interval_cases n
    simp [natDigitsAux]
  | succ f ih =>
    intro n hn
    by_cases h0 : n = 0
    · subst h0; simp [natDigitsAux]
    · rw [natDigitsAux, if_neg h0,
        Nat.digits_def' (by norm_num : (1:Nat) < 10) (Nat.pos_of_ne_zero h0),
        List.map_cons, List.reverse_cons]
      have hdiv : n / 10 ≤ f := by
        have : n / 10 < n := Nat.div_lt_self (Nat.pos_of_ne_zero h0)
          (by norm_num)
        omega
      rw [ih (n / 10) hdiv]

/-- Python's decimal rendering of a natural number is injective. -/
theorem natDecimal_injective : Function.Injective natDecimal := by
  have key : ∀ n : Nat, n ≠ 0 →
      natDecimal n =
        List.asString (((Nat.digits 10 n).map Nat.digitChar).reverse) := by
    intro n hn
    simp [natDecimal, hn, natDigitsAux_eq_digits n n le_rfl, List.asString]
  have digitsEq : ∀ m n : Nat, m ≠ 0 → n ≠ 0 →
      natDecimal m = natDecimal n → m = n := by
    intro m n hm hn h
    rw [key m hm, key n hn] at h
    have hdata := congrArg String.data h
    simp only [List.asString] at hdata
    have hrev := List.reverse_injective hdata
    have hdig := map_digitChar_inj _ _
      (fun x hx => Nat.digits_lt_base (by norm_num) hx)
      (fun x hx => Nat.digits_lt_base (by norm_num) hx) hrev
    calc m = Nat.ofDigits 10 (Nat.digits 10 m) := (Nat.ofDigits_digits 10 m).symm
      _ = Nat.ofDigits 10 (Nat.digits 10 n) := by rw [hdig]
      _ = n := Nat.ofDigits_digits 10 n
  have zeroNe : ∀ n : Nat, n ≠ 0 → natDecimal n ≠ natDecimal 0 := by
    intro n hn h
    rw [key n hn] at h
    have hdata := congrArg String.data h
    simp only [List.asString, natDecimal, if_pos rfl] at hdata
    have hrev : (Nat.digits 10 n).map Nat.digitChar = ['0'] := by
      have := congrArg List.reverse hdata
      simpa using this
    have : Nat.digits 10 n = [0] := by
      refine map_digitChar_inj _ [0]
        (fun x hx => Nat.digits_lt_base (by norm_num) hx) (by simp) ?_
      simpa [Nat.digitChar] using hrev
    have : n = 0 := by
      calc n = Nat.ofDigits 10 (Nat.digits 10 n) := (Nat.ofDigits_digits 10 n).symm
        _ = Nat.ofDigits 10 [0] := by rw [this]
        _ = 0 := by simp [Nat.ofDigits]
    exact hn this
  intro m n h
  by_cases hm : m = 0 <;> by_cases hn : n = 0
  · rw [hm, hn]
  · exact absurd (hm ▸ h).symm (zeroNe n hn)
  · exact absurd (hn ▸ h) (zeroNe m hm)
  · exact digitsEq m n hm hn h

/-- Distinct window sizes give distinct cache keys. -/
theorem cacheKey_injective : Function.Injective cacheKey := by
  intro m n h
  apply natDecimal_injective
  apply String.ext
  have hdata := congrArg String.data h
  simp only [cacheKey, String.data_append] at hdata
  exact List.append_cancel_left hdata

/-- Prepending an event preserves ordered occurrence. -/
theorem occursBefore_cons (e1 e2 x : OrchEvent) (tr : List OrchEvent)
    (h : occursBefore e1 e2 tr) : occursBefore e1 e2 (x :: tr) := by
  obtain ⟨p, q, hpq, hp, hq⟩ := h
  exact ⟨p + 1, q + 1, by omega, by simpa using hp, by simpa using hq⟩

/-- In the orchestration trace, each account's completion precedes the
dispatch of the next account. -/
theorem traceFrom_adjacent :
    ∀ (l : List String) (k i : Nat), i + 1 < l.length →
      occursBefore (OrchEvent.complete (k + i) (l.getD i ""))
        (OrchEvent.dispatch (k + i + 1) (l.getD (i + 1) ""))
        (traceFrom k l) := by
  intro l
  induction l with
  | nil => intro k i hi; simp at hi
  | cons u rest ih =>
    intro k i hi
    cases i with
    | zero =>
      cases rest with
      | nil => simp at hi
      | cons v rest' =>
        refine ⟨1, 3, by omega, ?_, ?_⟩
        · simp [traceFrom]
        · simp [traceFrom]
    | succ j =>
      have hj : j + 1 < rest.length := by
        simpa [List.length_cons] using hi
      have := ih (k + 1) j hj
      have harith : k + 1 + j = k + (j + 1) := by omega
      rw [harith] at this
      simp only [List.getD_cons_succ]
      exact occursBefore_cons _ _ _ _ (occursBefore_cons _ _ _ _
        (occursBefore_cons _ _ _ _ this))

/-- Inserting an already-present key keeps the dict's key sequence. -/
theorem dictInsert_keys_of_mem (k : String) (v : List Tweet) :
    ∀ m : ResultMap, k ∈ m.map Prod.fst →
      (dictInsert k v m).map Prod.fst = m.map Prod.fst := by
  intro m
  induction m with
  | nil => intro h; simp at h
  | cons p rest ih =>
    obtain ⟨k', v'⟩ := p
    intro h
    by_cases h2 : k' = k
    · simp [dictInsert, h2]
    · simp only [List.map_cons, List.mem_cons] at h
      rcases h with h | h
      · exact absurd h.symm h2
      · simp [dictInsert, h2, ih h]

/-- Inserting a fresh key appends it to the dict's key sequence. -/
theorem dictInsert_keys_of_not_mem (k : String) (v : List Tweet) :
    ∀ m : ResultMap, k ∉ m.map Prod.fst →
      (dictInsert k v m).map Prod.fst = m.map Prod.fst ++ [k] := by
  intro m
  induction m with
  | nil => intro _; simp [dictInsert]
  | cons p rest ih =>
    obtain ⟨k', v'⟩ := p
    intro h
    simp only [List.map_cons, List.mem_cons, not_or] at h
    rw [dictInsert, if_neg (fun hh : k' = k => h.1 hh.symm)]
    simp [ih h.2]

/-- The dict-initialization fold lays the lower-cased account keys out in
account order. -/
theorem init_fold_keys :
    ∀ (accs : List String) (m : ResultMap),
      (accs.map strLower).Nodup →
      (∀ u ∈ accs, strLower u ∉ m.map Prod.fst) →
      ((accs.foldl (fun m u => dictInsert (strLower u) [] m) m).map Prod.fst) =
        m.map Prod.fst ++ accs.map strLower := by
  intro accs
  induction accs with
  | nil => intro m _ _; simp
  | cons a rest ih =>
    intro m hnd hfresh
    simp only [List.map_cons, List.nodup_cons] at hnd
    simp only [List.foldl_cons]
    have hkeys := dictInsert_keys_of_not_mem (strLower a) [] m
      (hfresh a (List.mem_cons_self _ _))
    have hrest : ∀ u ∈ rest,
        strLower u ∉ (dictInsert (strLower a) [] m).map Prod.fst := by
      intro u hu
      rw [hkeys]
      simp only [List.mem_append, List.mem_singleton, not_or]
      refine ⟨hfresh u (List.mem_cons_of_mem _ hu), ?_⟩
      intro hEq
      exact hnd.1 (hEq ▸ List.mem_map_of_mem strLower hu)
    rw [ih _ hnd.2 hrest, hkeys]
    simp

/-- The per-account update fold preserves the key sequence when every
account's key is already present. -/
theorem update_fold_keys (f : String → List Tweet) :
    ∀ (accs : List String) (m : ResultMap),
      (∀ u ∈ accs, strLower u ∈ m.map Prod.fst) →
      ((accs.foldl (fun m u => dictInsert (strLower u) (f u) m) m).map
        Prod.fst) = m.map Prod.fst := by
  intro accs
  induction accs with
  | nil => intro m _; rfl
  | cons a rest ih =>
    intro m hmem
    simp only [List.foldl_cons]
    have hkeys := dictInsert_keys_of_mem (strLower a) (f a) m
      (hmem a (List.mem_cons_self _ _))
    rw [ih _ (fun u hu => hkeys ▸ hmem u (List.mem_cons_of_mem _ hu)), hkeys]

/-- The merged mapping's keys are the lower-cased accounts in configured
order. -/
theorem collectAllFresh_keys (accounts : List String) (start now : Int)
    (outcomes : String → FetchOutcome)
    (hnd : (accounts.map strLower).Nodup) :
    (collectAllFresh accounts start now outcomes).map Prod.fst =
      accounts.map strLower := by
  unfold collectAllFresh
  have hinit := init_fold_keys accounts [] hnd (by simp)
  simp only [List.map_nil, List.nil_append] at hinit
  rw [update_fold_keys _ accounts _ (fun u hu => by
    rw [hinit]; exact List.mem_map_of_mem strLower hu), hinit]

/-- `get_recent_tweets` either hits the cache (both dicts hold the key
and the entry is fresh) and returns the cached mapping with untouched
state, or takes the collection path and overwrites both entries. -/
theorem getRecentTweets_cases (st : ClientState) (accounts : List String)
    (now : Int) (hours : Nat) (outcomes : String → FetchOutcome) :
    (∃ res t0, assocLookup (cacheKey hours) st.tweetsCache = some res ∧
      assocLookup (cacheKey hours) st.tweetsCacheTime = some t0 ∧
      now - t0 < (cacheTtlMinutes : Int) * 60 ∧
      getRecentTweets st accounts now hours outcomes = (res, st, false)) ∨
    ((¬ ∃ res t0, assocLookup (cacheKey hours) st.tweetsCache = some res ∧
        assocLookup (cacheKey hours) st.tweetsCacheTime = some t0 ∧
        now - t0 < (cacheTtlMinutes : Int) * 60) ∧
      getRecentTweets st accounts now hours outcomes =
        (collectAllFresh accounts (now - (hours : Int) * 3600) now outcomes,
         ⟨assocInsert (cacheKey hours)
            (collectAllFresh accounts (now - (hours : Int) * 3600) now
              outcomes) st.tweetsCache,
          assocInsert (cacheKey hours) now st.tweetsCacheTime⟩, true)) := by
  rcases hc : assocLookup (cacheKey hours) st.tweetsCache with _ | res
  · right
    refine ⟨?_, by simp [getRecentTweets, hc]⟩
    rintro ⟨res, t0, h1, -, -⟩
    exact Option.noConfusion h1
  · rcases ht : assocLookup (cacheKey hours) st.tweetsCacheTime with _ | t0
    · right
      refine ⟨?_, by simp [getRecentTweets, hc, ht]⟩
      rintro ⟨res', t0, -, h2, -⟩
      exact Option.noConfusion h2
    · by_cases hlt : now - t0 < (cacheTtlMinutes : Int) * 60
      · left
        exact ⟨res, t0, rfl, rfl, hlt, by simp [getRecentTweets, hc, ht, hlt]⟩
      · right
        refine ⟨?_, by simp [getRecentTweets, hc, ht, hlt]⟩
        rintro ⟨res', t0', h1, h2, h3⟩
        obtain rfl : t0 = t0' := by injection h2
        exact hlt h3

/-- Whatever `_get_user_tweets` returns came from a collection run or is
empty: predicate transfer. -/
theorem mem_getUserTweets (u : String) (start now : Int)
    (P : Tweet → Prop)
    (hP : ∀ batches, ∀ t ∈ (collectTweets u start now batches).1, P t) :
    ∀ (o : FetchOutcome), ∀ t ∈ getUserTweets u start now o, P t := by
  intro o t ht
  cases o with
  | ok batches => exact hP batches t ht
  | setupError => simp [getUserTweets, getUserTweetsRun] at ht
  | sessionRejected => simp [getUserTweets, getUserTweetsRun] at ht
  | pageTimeout => simp [getUserTweets, getUserTweetsRun] at ht
  | fetchError => simp [getUserTweets, getUserTweetsRun] at ht

/-- Predicate transfer through the per-account insert fold. -/
theorem mem_foldl_dictInsert (f : String → List Tweet)
    (P : Tweet → Prop) (hP : ∀ u, ∀ t ∈ f u, P t) :
    ∀ (accs : List String) (m : ResultMap),
      (∀ p ∈ m, ∀ t ∈ p.2, P t) →
      ∀ p ∈ accs.foldl (fun m u => dictInsert (strLower u) (f u) m) m,
        ∀ t ∈ p.2, P t := by
  intro accs
  induction accs with
  | nil => intro m hm; exact hm
  | cons a rest ih =>
    intro m hm
    simp only [List.foldl_cons]
    refine ih _ ?_
    intro p hp
    rcases mem_dictInsert _ _ _ _ hp with rfl | hmem
    · exact hP a
    · exact hm p hmem

/-- Predicate transfer through the whole merged mapping. -/
theorem mem_collectAllFresh (accounts : List String) (start now : Int)
    (outcomes : String → FetchOutcome) (P : Tweet → Prop)
    (hP : ∀ u batches, ∀ t ∈ (collectTweets u start now batches).1, P t) :
    ∀ p ∈ collectAllFresh accounts start now outcomes, ∀ t ∈ p.2, P t := by
  unfold collectAllFresh
  refine mem_foldl_dictInsert _ P
    (fun u => mem_getUserTweets u start now P (hP u) (outcomes u)) accounts _ ?_
  refine mem_foldl_dictInsert (fun _ => []) P (by simp) accounts [] ?_
  simp

/-! ## Claim theorems -/

/-- C1: for every configured account, the mapping returned by
`get_recent_tweets`'s collection phase contains the account's lower-cased
handle as a key, mapped to exactly that account's collection result; any
account whose task ends in a rejected session, page timeout, or
exception (including setup failure) is mapped to the empty list, and
since the embedding is a total function, no error propagates to the
caller. Other accounts' entries depend only on their own outcome. -/
theorem collectAll_complete_mapping (accounts : List String)
    (start now : Int) (outcomes : String → FetchOutcome)
    (hnd : (accounts.map strLower).Nodup)
    (u : String) (hu : u ∈ accounts) :
    dictLookup (strLower u) (collectAllFresh accounts start now outcomes) =
      some (getUserTweets u start now (outcomes u)) ∧
    (∀ o : FetchOutcome, (∀ b, o ≠ FetchOutcome.ok b) →
      getUserTweets u start now o = []) := by
  constructor
  · unfold collectAllFresh
    exact dictLookup_foldl_mem
      (fun w => getUserTweets w start now (outcomes w)) u accounts _ hu hnd
  · intro o ho
    cases o with
    | setupError => rfl
    | sessionRejected => rfl
    | pageTimeout => rfl
    | fetchError => rfl
    | ok b => exact absurd rfl (ho b)

/-- Witness for C1 at a concrete account list and a rejected session. -/
theorem collectAll_complete_mapping_witness :
    dictLookup (strLower "Alice")
        (collectAllFresh ["Alice"] 0 50
          (fun _ => FetchOutcome.sessionRejected)) =
      some (getUserTweets "Alice" 0 50 FetchOutcome.sessionRejected) ∧
    getUserTweets "Alice" 0 50 FetchOutcome.fetchError = [] :=
  ⟨(collectAll_complete_mapping ["Alice"] 0 50
      (fun _ => FetchOutcome.sessionRejected) (by decide) "Alice"
      (by decide)).1,
   (collectAll_complete_mapping ["Alice"] 0 50
      (fun _ => FetchOutcome.sessionRejected) (by decide) "Alice"
      (by decide)).2 FetchOutcome.fetchError
      (fun b h => FetchOutcome.noConfusion h)⟩

/-- C2: whenever `get_recent_tweets` actually collects (cache miss),
every item in every account's returned sequence satisfies
`created_at ≥ now - hours`, the window start fixed at the start of the
run; moreover an element with no machine-readable timestamp is assigned
`now` as its `created_at`. -/
theorem collected_items_within_window :
    (∀ (st : ClientState) (accounts : List String) (now : Int)
        (hours : Nat) (outcomes : String → FetchOutcome)
        (k : String) (l : List Tweet) (t : Tweet),
      (getRecentTweets st accounts now hours outcomes).2.2 = true →
      dictLookup k (getRecentTweets st accounts now hours outcomes).1 =
        some l →
      t ∈ l → now - (hours : Int) * 3600 ≤ t.created_at) ∧
    (∀ (now : Int) (e : TweetElement),
      (∀ ts : Int, e.time_attrs.head? ≠ some (some ts)) →
      tweetCreatedAt now e = now) := by
  constructor
  · intro st accounts now hours outcomes k l t hinv hlook ht
    rcases getRecentTweets_cases st accounts now hours outcomes with
      ⟨res, t0, -, -, -, heq⟩ | ⟨-, heq⟩
    · rw [heq] at hinv; simp at hinv
    · rw [heq] at hlook
      have hall := mem_collectAllFresh accounts (now - (hours : Int) * 3600)
        now outcomes (fun t => now - (hours : Int) * 3600 ≤ t.created_at)
        (fun u batches => mem_collectTweets u _ now batches _
          (fun e tid turl _ hnot => by
            simpa [buildTweet] using not_lt.mp hnot))
      exact hall _ (dictLookup_mem _ _ _ hlook) t ht
  · intro now e hna
    rcases hh : e.time_attrs.head? with _ | ts?
    · simp [tweetCreatedAt, hh]
    · rcases ts? with _ | ts
      · simp [tweetCreatedAt, hh]
      · exact absurd hh (hna ts)

/-- Witness for C2 on a one-account run and on a container without a
`time` element. -/
theorem collected_items_within_window_witness :
    (0 : Int) - ((1 : Nat) : Int) * 3600 ≤
      (buildTweet "u" 0 sampleE1 "1"
        "https://twitter.com/user/status/1").created_at ∧
    tweetCreatedAt 0 noTimeElem = 0 :=
  ⟨collected_items_within_window.1 ⟨[], []⟩ ["u"] 0 1
      (fun _ => FetchOutcome.ok (batchesOf [[sampleE1]])) "u"
      [buildTweet "u" 0 sampleE1 "1" "https://twitter.com/user/status/1"]
      (buildTweet "u" 0 sampleE1 "1" "https://twitter.com/user/status/1")
      (by decide) (by decide) (by decide),
   collected_items_within_window.2 0 noTimeElem
      (by intro ts h; simp [noTimeElem, plainElem] at h)⟩

/-- C3: within a single account's collection run every id occurs at most
once in the returned sequence, and a container whose extracted id is
already in the seen-set leaves the state untouched (it is discarded
before any further processing). -/
theorem collected_ids_unique (u : String) (start now : Int)
    (batches : Nat → List TweetElement) (st : PState) (e : TweetElement)
    (tid turl : String) (hx : extractTweetId e = some (tid, turl))
    (hseen : tid ∈ st.1) :
    ((collectTweets u start now batches).1.map Tweet.id).Nodup ∧
    processElement u start now st e = st := by
  refine ⟨collectTweets_nodup u start now batches, ?_⟩
  unfold processElement
  by_cases hb : e.fail = FailPoint.beforeId
  · simp [hb]
  · simp [hb, hx, hseen]

/-- Witness for C3 on the duplicate-yielding batch schedule. -/
theorem collected_ids_unique_witness :
    ((collectTweets "user" 0 7
        (batchesOf [[sampleE1], [sampleE1, sampleE2], []])).1.map
        Tweet.id).Nodup ∧
    processElement "user" 0 7 (["1"], []) sampleE1 = (["1"], []) :=
  collected_ids_unique "user" 0 7
    (batchesOf [[sampleE1], [sampleE1, sampleE2], []]) (["1"], [])
    sampleE1 "1" "https://twitter.com/user/status/1" (by decide) (by decide)

/-- A key absent from the tweets cache forces the collection path. -/
theorem getRecentTweets_miss_of_no_cache (st : ClientState)
    (accounts : List String) (now : Int) (hours : Nat)
    (outcomes : String → FetchOutcome)
    (h : assocLookup (cacheKey hours) st.tweetsCache = none) :
    (getRecentTweets st accounts now hours outcomes).2.2 = true := by
  rcases getRecentTweets_cases st accounts now hours outcomes with
    ⟨res, t0, hc, -, -, -⟩ | ⟨-, heq⟩
  · rw [h] at hc; exact Option.noConfusion hc
  · rw [heq]

/-- C4: `get_recent_tweets` returns without invoking the browser layer
iff both cache dicts hold the exact `tweets_{hours}` key and the entry
is strictly younger than the fixed 5-minute TTL; such a hit returns the
cached mapping and leaves the state untouched; a collection run replaces
the whole entry — result and `fetched_at` — for that key at once; and a
later call for a different `window_hours` (key never previously cached)
misses the cache and re-collects even immediately after the first run. -/
theorem cache_hit_iff_fresh_entry (st : ClientState)
    (accounts : List String) (now : Int) (hours : Nat)
    (outcomes : String → FetchOutcome) :
    ((getRecentTweets st accounts now hours outcomes).2.2 = false ↔
      ∃ res t0, assocLookup (cacheKey hours) st.tweetsCache = some res ∧
        assocLookup (cacheKey hours) st.tweetsCacheTime = some t0 ∧
        now - t0 < (cacheTtlMinutes : Int) * 60) ∧
    (∀ res t0, assocLookup (cacheKey hours) st.tweetsCache = some res →
      assocLookup (cacheKey hours) st.tweetsCacheTime = some t0 →
      now - t0 < (cacheTtlMinutes : Int) * 60 →
      getRecentTweets st accounts now hours outcomes = (res, st, false)) ∧
    ((getRecentTweets st accounts now hours outcomes).2.2 = true →
      (getRecentTweets st accounts now hours outcomes).1 =
        collectAllFresh accounts (now - (hours : Int) * 3600) now outcomes ∧
      assocLookup (cacheKey hours)
          (getRecentTweets st accounts now hours outcomes).2.1.tweetsCache =
        some (getRecentTweets st accounts now hours outcomes).1 ∧
      assocLookup (cacheKey hours)
          (getRecentTweets st accounts now hours
            outcomes).2.1.tweetsCacheTime = some now) ∧
    (∀ (hours' : Nat) (now' : Int) (accounts' : List String)
        (outcomes' : String → FetchOutcome), hours' ≠ hours →
      assocLookup (cacheKey hours') st.tweetsCache = none →
      (getRecentTweets (getRecentTweets st accounts now hours outcomes).2.1
        accounts' now' hours' outcomes').2.2 = true) := by
  rcases getRecentTweets_cases st accounts now hours outcomes with
    ⟨res, t0, hc, ht, hlt, heq⟩ | ⟨hmiss, heq⟩
  · refine ⟨?_, ?_, ?_, ?_⟩
    · rw [heq]
      exact iff_of_true rfl ⟨res, t0, hc, ht, hlt⟩
    · intro res' t0' hc' ht' hlt'
      rw [hc] at hc'
      obtain rfl : res = res' := by injection hc'
      exact heq
    · rw [heq]
      intro h
      exact absurd h (by simp)
    · intro hours' now' accounts' outcomes' hne h0
      rw [heq]
      exact getRecentTweets_miss_of_no_cache _ accounts' now' hours'
        outcomes' h0
  · refine ⟨?_, ?_, ?_, ?_⟩
    · rw [heq]
      refine iff_of_false (by simp) ?_
      exact fun hex => hmiss hex
    · intro res t0 hc ht hlt
      exact absurd ⟨res, t0, hc, ht, hlt⟩ hmiss
    · intro _
      rw [heq]
      exact ⟨rfl, assocLookup_assocInsert_self _ _ _,
        assocLookup_assocInsert_self _ _ _⟩
    · intro hours' now' accounts' outcomes' hne h0
      rw [heq]
      refine getRecentTweets_miss_of_no_cache _ accounts' now' hours'
        outcomes' ?_
      rw [assocLookup_assocInsert_ne _ _ _ _
        (fun h => hne (cacheKey_injective h).symm)]
      exact h0

/-- Witness for C4: a 24-hour run from an empty cache, followed by a
12-hour call, which re-collects. -/
theorem cache_hit_iff_fresh_entry_witness :
    (getRecentTweets
      (getRecentTweets ⟨[], []⟩ [] 0 24
        (fun _ => FetchOutcome.sessionRejected)).2.1
      [] 0 12 (fun _ => FetchOutcome.sessionRejected)).2.2 = true :=
  (cache_hit_iff_fresh_entry ⟨[], []⟩ [] 0 24
    (fun _ => FetchOutcome.sessionRejected)).2.2.2 12 0 []
    (fun _ => FetchOutcome.sessionRejected) (by decide) (by decide)

/-- C5: on the mocked schedule — batch 0 renders the id-1 container,
batch 1 renders the id-1 and id-2 containers, batch 2 renders nothing,
all timestamps inside the window — the collector returns exactly the
items with ids 1 and 2 in that order, performs exactly 3 extraction
rounds, and terminates by the zero-yield break rather than by exhausting
`max_scrolls`. -/
theorem collector_stops_on_zero_yield :
    ((collectTweets "user" 0 7
        (batchesOf [[sampleE1], [sampleE1, sampleE2], []])).1.map Tweet.id =
      ["1", "2"]) ∧
    (collectTweets "user" 0 7
        (batchesOf [[sampleE1], [sampleE1, sampleE2], []])).2 = 3 ∧
    (collectTweets "user" 0 7
        (batchesOf [[sampleE1], [sampleE1, sampleE2], []])).2 ≠
      1 + maxScrolls := by
  decide

/-- C7: every `_get_user_tweets` task that acquired a browser handle
releases it on every exit path — normal completion, session rejection,
page-load timeout, and any raised exception. -/
theorem handle_released_on_all_paths (u : String) (start now : Int)
    (o : FetchOutcome)
    (h : (getUserTweetsRun u start now o).acquired = true) :
    (getUserTweetsRun u start now o).released = true := by
  cases o <;> first | rfl | exact h

/-- Witness for C7 on the session-rejection path. -/
theorem handle_released_on_all_paths_witness :
    (getUserTweetsRun "user" 0 0 FetchOutcome.sessionRejected).released =
      true :=
  handle_released_on_all_paths "user" 0 0 FetchOutcome.sessionRejected
    (by decide)

/-- An item without the `original_author` binding never renders that
key. -/
theorem keys_no_original (t : Tweet) (h : t.original_author = none) :
    "original_author" ∉ t.keys := by
  simp only [Tweet.keys, h]
  decide

/-- A built item with a false repost flag carries no `original_author`
binding. -/
theorem buildTweet_no_original (u : String) (now : Int) (e : TweetElement)
    (tid turl : String)
    (h : (buildTweet u now e tid turl).is_retweet = false) :
    (buildTweet u now e tid turl).original_author = none := by
  rcases ha : authorUsername e with _ | a
  · simp [buildTweet, ha]
  · simp only [buildTweet, ha] at h ⊢
    have : ¬ a ≠ strLower u := by
      intro hne
      rw [decide_eq_true hne] at h
      exact Bool.noConfusion h
    rw [if_neg (fun hand => this hand.1)]

/-- C6 counterexample: on a container whose rendered author link is the
bare site root, the extracted author handle is the empty string, which
differs from the queried account `bob`, so the returned item has
`is_retweet = true` — yet the `original_author` key is absent (the empty
handle is falsy at line 300), refuting the claim that whenever the flag
is true the `original_author` field equals the rendered author handle. -/
theorem repost_empty_author_counterexample :
    authorUsername emptyAuthorElem = some "" ∧
    ((collectTweets "bob" 0 9 (batchesOf [[emptyAuthorElem]])).1.map
      (fun t => (t.is_retweet, t.original_author,
        t.keys.contains "original_author"))) = [(true, none, false)] := by
  decide

/-- C6 (amended): for an item accepted from a container with an
extracted author handle, the repost flag is set exactly when that handle
differs from the lower-cased queried account; when the flag is set and
the handle is nonempty, `original_author` holds the handle (lower-cased
by extraction); when the handle is empty the `original_author` key is
absent even though the flag may be set; when the flag is false the
`original_author` key is absent, and likewise for every item of a full
collection run. -/
theorem repost_flag_and_original_author (u : String) (start now : Int)
    (st : PState) (e : TweetElement) (t : Tweet) (a : String)
    (batches : Nat → List TweetElement) (t' : Tweet)
    (happ : (processElement u start now st e).2 = st.2 ++ [t])
    (hauth : authorUsername e = some a)
    (ht' : t' ∈ (collectTweets u start now batches).1) :
    (t.is_retweet = true ↔ a ≠ strLower u) ∧
    (t.is_retweet = true → a ≠ "" → t.original_author = some a) ∧
    (a = "" → "original_author" ∉ t.keys) ∧
    (t.is_retweet = false → "original_author" ∉ t.keys) ∧
    (t'.is_retweet = false → "original_author" ∉ t'.keys) := by
  have hbuild : ∃ tid turl, extractTweetId e = some (tid, turl) ∧
      t = buildTweet u now e tid turl := by
    rcases processElement_eq u start now st e with h | ⟨tid, turl, hx, -, -, h⟩
    · rw [h] at happ
      have := congrArg List.length happ
      simp at this
    · rcases h with ⟨h, -⟩ | ⟨h, -, -⟩
      · rw [h] at happ
        have := congrArg List.length happ
        simp at this
      · rw [h] at happ
        have := List.append_cancel_left happ.symm
        simp only [List.cons.injEq, and_true] at this
        exact ⟨tid, turl, hx, this⟩
  obtain ⟨tid, turl, -, rfl⟩ := hbuild
  refine ⟨?_, ?_, ?_, ?_, ?_⟩
  · simp [buildTweet, hauth]
  · intro h1 h2
    have hne : a ≠ strLower u := by
      simp only [buildTweet, hauth, decide_eq_true_eq] at h1
      exact h1
    simp [buildTweet, hauth, if_pos (And.intro hne h2)]
  · intro h0
    subst h0
    refine keys_no_original _ ?_
    simp [buildTweet, hauth]
  · intro h3
    exact keys_no_original _ (buildTweet_no_original u now e tid turl h3)
  · intro h4
    revert h4
    refine mem_collectTweets u start now batches
      (fun t => t.is_retweet = false → "original_author" ∉ t.keys)
      (fun e' tid' turl' _ _ h =>
        keys_no_original _ (buildTweet_no_original u now e' tid' turl' h))
      t' ht'

/-- Witness for C6 (amended) on a genuine repost container, an
empty-handle container with the flag set, and a non-repost container. -/
theorem repost_flag_and_original_author_witness :
    (buildTweet "bob" 9 repostElem "5"
      "https://twitter.com/bob/status/5").original_author =
      some "charlie" ∧
    "original_author" ∉
      (buildTweet "bob" 9 emptyAuthorElem "77"
        "https://twitter.com/alice/status/77").keys ∧
    "original_author" ∉
      (buildTweet "bob" 9 sampleE1 "1"
        "https://twitter.com/user/status/1").keys :=
  ⟨(repost_flag_and_original_author "bob" 0 9 ([], []) repostElem
      (buildTweet "bob" 9 repostElem "5" "https://twitter.com/bob/status/5")
      "charlie" (batchesOf [[sampleE1]])
      (buildTweet "bob" 9 sampleE1 "1" "https://twitter.com/user/status/1")
      (by decide) (by decide) (by decide)).2.1 (by decide) (by decide),
   (repost_flag_and_original_author "bob" 0 9 ([], []) emptyAuthorElem
      (buildTweet "bob" 9 emptyAuthorElem "77"
        "https://twitter.com/alice/status/77")
      "" (batchesOf [[sampleE1]])
      (buildTweet "bob" 9 sampleE1 "1" "https://twitter.com/user/status/1")
      (by decide) (by decide) (by decide)).2.2.1 rfl,
   (repost_flag_and_original_author "bob" 0 9 ([], []) repostElem
      (buildTweet "bob" 9 repostElem "5" "https://twitter.com/bob/status/5")
      "charlie" (batchesOf [[sampleE1]])
      (buildTweet "bob" 9 sampleE1 "1" "https://twitter.com/user/status/1")
      (by decide) (by decide) (by decide)).2.2.2.2 (by decide)⟩

/-- C8 counterexample: a returned item carries no `author` key at all —
the dict built at lines 289-301 has keys `id`, `text`, `created_at`,
`image_urls`, `url`, `is_retweet` (and possibly `original_author`), so
the claim that every item carries an `author` field fails. -/
theorem no_author_field_counterexample :
    (collectTweets "user" 0 7 (batchesOf [[sampleE1]])).1.length = 1 ∧
    ((collectTweets "user" 0 7 (batchesOf [[sampleE1]])).1.all
      (fun t => !(t.keys.contains "author"))) = true := by
  decide

/-- C8 (amended): every returned item carries `id`, `text`,
`created_at`, `image_urls`, `url` and the repost flag `is_retweet`; no
`author` field is stored on the item (the account handle is the key of
the surrounding mapping). -/
theorem item_field_keys (u : String) (start now : Int)
    (batches : Nat → List TweetElement) (t : Tweet)
    (ht : t ∈ (collectTweets u start now batches).1) :
    "id" ∈ t.keys ∧ "text" ∈ t.keys ∧ "created_at" ∈ t.keys ∧
    "image_urls" ∈ t.keys ∧ "url" ∈ t.keys ∧ "is_retweet" ∈ t.keys ∧
    "author" ∉ t.keys := by
  rcases h : t.original_author with _ | a <;>
    simp only [Tweet.keys, h] <;> decide

/-- Witness for C8 (amended) on a concrete run. -/
theorem item_field_keys_witness :
    "id" ∈ (buildTweet "user" 7 sampleE1 "1"
      "https://twitter.com/user/status/1").keys ∧
    "text" ∈ (buildTweet "user" 7 sampleE1 "1"
      "https://twitter.com/user/status/1").keys ∧
    "created_at" ∈ (buildTweet "user" 7 sampleE1 "1"
      "https://twitter.com/user/status/1").keys ∧
    "image_urls" ∈ (buildTweet "user" 7 sampleE1 "1"
      "https://twitter.com/user/status/1").keys ∧
    "url" ∈ (buildTweet "user" 7 sampleE1 "1"
      "https://twitter.com/user/status/1").keys ∧
    "is_retweet" ∈ (buildTweet "user" 7 sampleE1 "1"
      "https://twitter.com/user/status/1").keys ∧
    "author" ∉ (buildTweet "user" 7 sampleE1 "1"
      "https://twitter.com/user/status/1").keys :=
  item_field_keys "user" 0 7 (batchesOf [[sampleE1]])
    (buildTweet "user" 7 sampleE1 "1" "https://twitter.com/user/status/1")
    (by decide)

/-- C9 counterexample: with two configured accounts the orchestrator
loop completes (awaits) account `a` strictly before it dispatches
account `b` — the dispatch of the next account's independent work never
precedes the completion of the current one, refuting the non-blocking
dispatch claim. -/
theorem orchestrator_blocks_counterexample :
    ¬ occursBefore (OrchEvent.dispatch 1 "b") (OrchEvent.complete 0 "a")
      (collectAllTrace ["a", "b"]) := by
  rintro ⟨p, q, hpq, hp, hq⟩
  have hlen : (collectAllTrace ["a", "b"]).length = 6 := by decide
  have hp6 : p < 6 := by
    by_contra hcon
    push_neg at hcon
    rw [List.get?_eq_none.mpr (by rw [hlen]; exact hcon)] at hp
    exact Option.noConfusion hp
  have hq6 : q < 6 := by
    by_contra hcon
    push_neg at hcon
    rw [List.get?_eq_none.mpr (by rw [hlen]; exact hcon)] at hq
    exact Option.noConfusion hq
  interval_cases p <;> interval_cases q <;>
    first
      | exact absurd hp (by decide)
      | exact absurd hq (by decide)

/-- C9 (amended): the executor is created with `max_workers = 3`, but
the per-account work is dispatched strictly sequentially — each
account's completion is awaited before the next account's task is
dispatched — and the merged mapping's keys are the lower-cased accounts
in the original configured order. -/
theorem orchestration_sequential_bounded_pool (accounts : List String)
    (i : Nat) (start now : Int) (outcomes : String → FetchOutcome)
    (hi : i + 1 < accounts.length)
    (hnd : (accounts.map strLower).Nodup) :
    maxWorkers = 3 ∧
    occursBefore (OrchEvent.complete i (accounts.getD i ""))
      (OrchEvent.dispatch (i + 1) (accounts.getD (i + 1) ""))
      (collectAllTrace accounts) ∧
    (collectAllFresh accounts start now outcomes).map Prod.fst =
      accounts.map strLower := by
  refine ⟨rfl, ?_, collectAllFresh_keys accounts start now outcomes hnd⟩
  have h := traceFrom_adjacent accounts 0 i hi
  simpa [collectAllTrace] using h

/-- Witness for C9 (amended) on two accounts. -/
theorem orchestration_sequential_bounded_pool_witness :
    maxWorkers = 3 ∧
    occursBefore (OrchEvent.complete 0 "a") (OrchEvent.dispatch 1 "b")
      (collectAllTrace ["a", "b"]) ∧
    (collectAllFresh ["a", "b"] 0 0
      (fun _ => FetchOutcome.sessionRejected)).map Prod.fst =
      ["a", "b"].map strLower :=
  orchestration_sequential_bounded_pool ["a", "b"] 0 0 0
    (fun _ => FetchOutcome.sessionRejected) (by decide) (by decide)

/-- C10: a container whose id is extracted is recorded in the seen-set
before the recency filter and before the remaining fields; hence an item
first encountered with `created_at < window_start`, or whose container
raises after its id was read, contributes nothing to the batch output,
its id enters the seen-set, and it is excluded from the rest of the run
— it is never accepted on a later extraction round even if re-rendered
within the window and without error. -/
theorem dropped_id_permanently_excluded (u : String) (start now : Int)
    (st : PState) (e : TweetElement) (i turl : String)
    (batches : Nat → List TweetElement) (fuel idx : Nat) (isScroll : Bool)
    (es : List TweetElement) (accPrev : List Tweet)
    (hid : extractTweetId e = some (i, turl))
    (hfresh : i ∉ st.1) (hacc : i ∉ st.2.map Tweet.id)
    (hprev : i ∉ accPrev.map Tweet.id)
    (hfp : e.fail ≠ FailPoint.beforeId)
    (hdrop : e.fail = FailPoint.afterId ∨ tweetCreatedAt now e < start) :
    (processElement u start now st e).2 = st.2 ∧
    i ∈ (processElement u start now st e).1 ∧
    i ∉ (resumeRun u start now batches fuel idx isScroll es
      (processElement u start now st e) accPrev).1.map Tweet.id := by
  have heq : processElement u start now st e = (i :: st.1, st.2) := by
    rcases hdrop with ha | ht
    · simp [processElement, hfp, hid, hfresh, ha]
    · by_cases ha : e.fail = FailPoint.afterId
      · simp [processElement, hfp, hid, hfresh, ha]
      · simp [processElement, hfp, hid, hfresh, ha, ht]
  refine ⟨by rw [heq], by rw [heq]; exact List.mem_cons_self _ _, ?_⟩
  rw [heq]
  exact excluded_resumeRun u start now batches fuel idx isScroll es
    (i :: st.1, st.2) accPrev i (List.mem_cons_self _ _) hacc hprev

/-- Witness for C10: id 9 is first seen too old in the initial batch and
stays excluded even though a fresh in-window rendering of id 9 appears
on the next scroll. -/
theorem dropped_id_permanently_excluded_witness :
    (processElement "user" 10 10 ([], []) oldElem).2 = [] ∧
    "9" ∈ (processElement "user" 10 10 ([], []) oldElem).1 ∧
    "9" ∉ (resumeRun "user" 10 10
      (batchesOf [[oldElem], [freshElem9], []]) maxScrolls 1 false []
      (processElement "user" 10 10 ([], []) oldElem) []).1.map Tweet.id :=
  dropped_id_permanently_excluded "user" 10 10 ([], []) oldElem "9"
    "https://twitter.com/user/status/9"
    (batchesOf [[oldElem], [freshElem9], []]) maxScrolls 1 false [] []
    (by decide) (by decide) (by decide) (by decide) (by decide)
    (Or.inr (by decide))

end TwitterClient
